import Mathlib

/-!
Verification of the `django-microservice-propaganda` distribution.

The repository ships a single source file, `setup.py` (the packaging
script).  The specification additionally describes the minimal pub/sub
core the package is meant to provide (envelope, serializer, connection
manager, publisher, subscriber/dispatcher); that code is not present in
the repository, so those components are modelled here from the spec's
own words and each such definition is marked `Modelled from the spec:`.
The packaging script itself is embedded from `src/setup.py`.
-/

namespace Propaganda

/-! ## Topic pattern matching (Dispatcher Loop)

Modelled from the spec: the Dispatcher Loop's pattern matching "follows
broker routing-key wildcard semantics: `*` matches exactly one word
segment, `#` matches zero-or-more, segments delimited by `.`".  The
repository's dispatcher code is absent from `src/`. -/

/-- One segment of a topic pattern: a literal word, `*`, or `#`. -/
inductive Seg where
  | word (w : String)
  | star
  | hash
  deriving DecidableEq, Repr

/-- Split a dot-delimited string into its word segments (the spec:
"segments delimited by `.`").  `acc` holds the current segment's
characters in reverse. -/
def splitSegsAux : List Char → List Char → List String
  | [], acc => [String.mk acc.reverse]
  | c :: cs, acc =>
      if c = '.' then String.mk acc.reverse :: splitSegsAux cs []
      else splitSegsAux cs (c :: acc)

/-- Split a topic or pattern string on `.`. -/
def splitSegs (s : String) : List String :=
  splitSegsAux s.data []

/-- Parse one dot-delimited pattern segment. -/
def parseSeg (s : String) : Seg :=
  if s = "*" then .star else if s = "#" then .hash else .word s

/-- Modelled from the spec: split a pattern on `.` and classify each
segment (`*` one word, `#` zero or more). -/
def parsePattern (p : String) : List Seg :=
  (splitSegs p).map parseSeg

/-- Modelled from the spec: the recursive wildcard matcher over segment
lists.  `*` consumes exactly one topic segment, `#` consumes zero or
more. -/
def segsMatch : List Seg → List String → Bool
  | [], [] => true
  | [], _ :: _ => false
  | .word _ :: _, [] => false
  | .word w :: ps, t :: ts => w == t && segsMatch ps ts
  | .star :: _, [] => false
  | .star :: ps, _ :: ts => segsMatch ps ts
  | .hash :: ps, [] => segsMatch ps []
  | .hash :: ps, t :: ts => segsMatch ps (t :: ts) || segsMatch (.hash :: ps) ts
  termination_by ps ts => (ps.length, ts.length)

/-- Modelled from the spec: does topic pattern `p` match topic `t`
(both dot-delimited strings)? -/
def topicMatches (p t : String) : Bool :=
  segsMatch (parsePattern p) (splitSegs t)

/-- The declarative wildcard semantics, following the spec's words:
a literal word matches itself, `*` matches exactly one segment, and
`#` matches zero or more segments. -/
inductive Matches : List Seg → List String → Prop where
  | nil : Matches [] []
  | word {w ps ts} : Matches ps ts → Matches (.word w :: ps) (w :: ts)
  | star {t ps ts} : Matches ps ts → Matches (.star :: ps) (t :: ts)
  | hashZero {ps ts} : Matches ps ts → Matches (.hash :: ps) ts
  | hashMore {t ps ts} : Matches (.hash :: ps) ts → Matches (.hash :: ps) (t :: ts)

theorem segsMatch_iff_Matches (ps : List Seg) (ts : List String) :
    segsMatch ps ts = true ↔ Matches ps ts := by
  constructor
  · intro h
    induction ps, ts using segsMatch.induct with
    | case1 => exact .nil
    | case2 => simp [segsMatch] at h
    | case3 => simp [segsMatch] at h
    | case4 w ps t ts ih =>
      rw [segsMatch, Bool.and_eq_true, beq_iff_eq] at h
      obtain ⟨rfl, h2⟩ := h
      exact .word (ih h2)
    | case5 => simp [segsMatch] at h
    | case6 ps t ts ih =>
      rw [segsMatch] at h
      exact .star (ih h)
    | case7 ps ih =>
      rw [segsMatch] at h
      exact .hashZero (ih h)
    | case8 ps t ts ih1 ih2 =>
      rw [segsMatch, Bool.or_eq_true] at h
      rcases h with h | h
      · exact .hashZero (ih1 h)
      · exact .hashMore (ih2 h)
  · intro h
    induction h with
    | nil => rw [segsMatch]
    | word _ ih => rw [segsMatch]; simp [ih]
    | star _ ih => rw [segsMatch]; exact ih
    | hashZero h ih =>
      rename_i ps ts
      cases ts with
      | nil => rw [segsMatch]; exact ih
      | cons t ts => rw [segsMatch]; simp [ih]
    | hashMore _ ih => rw [segsMatch]; simp [ih]

/-- C3: the Dispatcher Loop's topic pattern matching follows broker
wildcard semantics over dot-delimited segments (`*` matches exactly one
word segment, `#` zero or more); in particular `orders.*` matches
`orders.created` but not `orders.created.eu`, while `orders.#` matches
both. -/
theorem dispatcher_topic_wildcard_semantics :
    (∀ p t, topicMatches p t = true ↔ Matches (parsePattern p) (splitSegs t)) ∧
    topicMatches "orders.*" "orders.created" = true ∧
    topicMatches "orders.*" "orders.created.eu" = false ∧
    topicMatches "orders.#" "orders.created" = true ∧
    topicMatches "orders.#" "orders.created.eu" = true := by
  have hstar : parsePattern "orders.*" = [Seg.word "orders", Seg.star] := by decide
  have hhash : parsePattern "orders.#" = [Seg.word "orders", Seg.hash] := by decide
  have ht1 : splitSegs "orders.created" = ["orders", "created"] := by decide
  have ht2 : splitSegs "orders.created.eu" = ["orders", "created", "eu"] := by decide
  refine ⟨fun p t => segsMatch_iff_Matches _ _, ?_, ?_, ?_, ?_⟩ <;>
    simp only [topicMatches, hstar, hhash, ht1, ht2] <;> simp [segsMatch]

/-! ## Serializer

Modelled from the spec: a Serializer "converts application objects
to/from wire payloads (bytes) and declares a content-type tag", and the
round-trip law `deserialize(serialize(O)) == O` must hold for every
registered Serializer.  The repository's serializer code is absent from
`src/`; application objects are modelled as a small JSON-like type and
wire payloads as word streams (`List Nat`). -/

/-- An application object: a number, a string, or a pair of objects
(enough to express the spec's example payload `\x7bvalue: 42\x7d` as
`pair (str "value") (nat 42)`). -/
inductive Obj where
  | nat (n : Nat)
  | str (s : String)
  | pair (a b : Obj)
  deriving DecidableEq, Repr

/-- Modelled from the spec: tag-prefixed wire encoding of an object. -/
def serializeObj : Obj → List Nat
  | .nat n => [0, n]
  | .str s => 1 :: s.data.length :: s.data.map Char.toNat
  | .pair a b => 2 :: (serializeObj a ++ serializeObj b)

/-- Fuel-indexed decoder: reads one object from the front of the
payload and returns it with the unconsumed remainder. -/
def deserializeAux : Nat → List Nat → Option (Obj × List Nat)
  | 0, _ => none
  | _ + 1, 0 :: n :: rest => some (.nat n, rest)
  | _ + 1, 1 :: len :: rest =>
      if len ≤ rest.length then
        some (.str (String.mk ((rest.take len).map Char.ofNat)), rest.drop len)
      else none
  | fuel + 1, 2 :: rest => do
      let (a, r1) ← deserializeAux fuel rest
      let (b, r2) ← deserializeAux fuel r1
      pure (.pair a b, r2)
  | _ + 1, _ => none

/-- Modelled from the spec: decode a whole payload; fails unless the
payload is exactly one encoded object. -/
def deserializeObj (payload : List Nat) : Option Obj :=
  match deserializeAux (payload.length + 1) payload with
  | some (o, []) => some o
  | _ => none

/-- Nesting depth of an object, a bound on the decoder fuel needed. -/
def Obj.depth : Obj → Nat
  | .nat _ => 1
  | .str _ => 1
  | .pair a b => max a.depth b.depth + 1

theorem depth_le_length_serializeObj (o : Obj) :
    o.depth ≤ (serializeObj o).length := by
  induction o with
  | nat n => simp [Obj.depth, serializeObj]
  | str s => simp [Obj.depth, serializeObj]
  | pair a b iha ihb =>
    simp only [Obj.depth, serializeObj, List.length_cons, List.length_append]
    omega

theorem deserializeAux_serializeObj (o : Obj) :
    ∀ fuel rest, o.depth ≤ fuel →
      deserializeAux fuel (serializeObj o ++ rest) = some (o, rest) := by
  induction o with
  | nat n =>
    intro fuel rest h
    match fuel with
    | f + 1 => simp [serializeObj, deserializeAux]
  | str s =>
    intro fuel rest h
    match fuel with
    | f + 1 =>
      have hlen : (s.data.map Char.toNat).length = s.data.length :=
        List.length_map _ _
      simp only [serializeObj, List.cons_append, deserializeAux, List.append_eq]
      rw [if_pos]
      · rw [List.take_left' hlen, List.drop_left' hlen]
        simp only [List.map_map]
        have : s.data.map (Char.ofNat ∘ Char.toNat) = s.data := by
          simp [Function.comp_def]
        rw [this]
      · rw [List.length_append, hlen]
        exact Nat.le_add_right _ _
  | pair a b iha ihb =>
    intro fuel rest h
    match fuel with
    | f + 1 =>
      have ha : a.depth ≤ f := by
        have := le_max_left a.depth b.depth
        simp only [Obj.depth] at h
        omega
      have hb : b.depth ≤ f := by
        have := le_max_right a.depth b.depth
        simp only [Obj.depth] at h
        omega
      simp only [serializeObj, List.cons_append, deserializeAux, List.append_eq,
        List.append_assoc]
      rw [iha f (serializeObj b ++ rest) ha]
      simp only [Option.bind_eq_bind, Option.some_bind]
      rw [ihb f rest hb]
      rfl

theorem deserializeObj_serializeObj (o : Obj) :
    deserializeObj (serializeObj o) = some o := by
  have h : deserializeAux ((serializeObj o).length + 1) (serializeObj o ++ []) =
      some (o, []) :=
    deserializeAux_serializeObj o _ []
      (Nat.le_succ_of_le (depth_le_length_serializeObj o))
  rw [List.append_nil] at h
  simp [deserializeObj, h]

/-- A registered serializer: wire codec plus its content-type tag. -/
structure Serializer where
  contentType : String
  ser : Obj → List Nat
  deser : List Nat → Option Obj

/-- Modelled from the spec: the default serializer for the configured
content type. -/
def defaultSerializer : Serializer :=
  { contentType := "application/x-propaganda"
    ser := serializeObj
    deser := deserializeObj }

/-- Modelled from the spec: the serializer registry; the model
registers the single default codec. -/
def registeredSerializers : List Serializer :=
  [defaultSerializer]

/-- C1: for every registered Serializer and every application object
`o`, deserializing the serialization of `o` yields `o` again (the
round-trip law). -/
theorem serializer_roundtrip (S : Serializer) (hS : S ∈ registeredSerializers)
    (o : Obj) : S.deser (S.ser o) = some o := by
  simp only [registeredSerializers, List.mem_singleton] at hS
  subst hS
  exact deserializeObj_serializeObj o

/-- Concrete instance of the round-trip law at the spec's example
payload. -/
theorem serializer_roundtrip_witness :
    defaultSerializer.deser
        (defaultSerializer.ser (Obj.pair (Obj.str "value") (Obj.nat 42))) =
      some (Obj.pair (Obj.str "value") (Obj.nat 42)) :=
  serializer_roundtrip defaultSerializer (by simp [registeredSerializers])
    (Obj.pair (Obj.str "value") (Obj.nat 42))

/-! ## Dispatcher redelivery policy

Modelled from the spec: "If a handler fails (raises an error), the
message is negatively acknowledged/requeued up to a configured
max-redelivery count, after which it is routed to a dead-letter path
(if configured) or dropped with an error log."  The repository's
dispatcher code is absent from `src/`.  A handler is modelled as a
function from the attempt number to success/failure. -/

inductive DeliveryOutcome where
  | acked
  | deadLettered
  | droppedWithError
  deriving DecidableEq, Repr

/-- Modelled from the spec: attempt delivery with `r` redeliveries
still allowed, starting at attempt number `attempt`; returns the number
of attempts consumed and whether a delivery succeeded. -/
def deliverAttempts (handler : Nat → Bool) : Nat → Nat → Nat × Bool
  | 0, attempt => (1, handler attempt)
  | r + 1, attempt =>
      if handler attempt then (1, true)
      else
        let p := deliverAttempts handler r (attempt + 1)
        (p.1 + 1, p.2)

structure DispatchReport where
  attempts : Nat
  outcome : DeliveryOutcome
  deriving DecidableEq, Repr

/-- Modelled from the spec: deliver one message under the redelivery
policy; an exhausted message goes to dead-letter when configured, else
it is dropped with an error signal. -/
def dispatchMessage (handler : Nat → Bool) (maxRedelivery : Nat)
    (deadLetterConfigured : Bool) : DispatchReport :=
  let p := deliverAttempts handler maxRedelivery 0
  { attempts := p.1
    outcome :=
      if p.2 then .acked
      else if deadLetterConfigured then .deadLettered
      else .droppedWithError }

theorem deliverAttempts_all_fail (handler : Nat → Bool)
    (hfail : ∀ a, handler a = false) :
    ∀ r attempt, deliverAttempts handler r attempt = (r + 1, false) := by
  intro r
  induction r with
  | zero => intro attempt; simp [deliverAttempts, hfail]
  | succ r ih => intro attempt; simp [deliverAttempts, hfail, ih]

/-- C2: a handler that fails on every attempt is redelivered exactly
`maxRedelivery` times — `maxRedelivery + 1` total attempts — and the
message then goes to the dead-letter path when configured, else it is
dropped with an error signal. -/
theorem dispatcher_redelivery_exhaustion (handler : Nat → Bool)
    (maxRedelivery : Nat) (dl : Bool) (hfail : ∀ a, handler a = false) :
    (dispatchMessage handler maxRedelivery dl).attempts = maxRedelivery + 1 ∧
    (dispatchMessage handler maxRedelivery dl).outcome =
      (if dl then .deadLettered else .droppedWithError) := by
  simp [dispatchMessage, deliverAttempts_all_fail handler hfail]

/-- Concrete instance: with `max_redelivery = 3` there are exactly 4
delivery attempts and the message is dead-lettered. -/
theorem dispatcher_redelivery_exhaustion_witness :
    (dispatchMessage (fun _ => false) 3 true).attempts = 4 ∧
    (dispatchMessage (fun _ => false) 3 true).outcome =
      DeliveryOutcome.deadLettered := by
  have h := dispatcher_redelivery_exhaustion (fun _ => false) 3 true
    (fun _ => rfl)
  simpa using h

/-! ## Dispatch fan-out

Modelled from the spec: "Publishing to topic T with N matching Bindings
invokes exactly N handlers, each exactly once, given no failures" and
"Multiple bindings may match one topic; insertion order determines
dispatch order".  The repository's subscriber registry code is absent
from `src/`. -/

/-- A Binding associates a topic pattern with a handler (identified by
an id). -/
structure Binding where
  pattern : String
  handlerId : Nat
  deriving DecidableEq, Repr

/-- Modelled from the spec: the handlers the Dispatcher invokes, in
insertion order, when one message on `topic` arrives and no failure
occurs. -/
def invokedHandlers (bindings : List Binding) (topic : String) : List Nat :=
  (bindings.filter fun b => topicMatches b.pattern topic).map Binding.handlerId

/-- C4: publishing one message to `topic` invokes exactly as many
handlers as there are matching bindings; each matching handler is
invoked exactly once and each non-matching handler not at all
(handlers pairwise distinct, no failures). -/
theorem publish_invokes_each_matching_handler_once (bindings : List Binding)
    (topic : String) (hnodup : (bindings.map Binding.handlerId).Nodup) :
    (invokedHandlers bindings topic).length =
      (bindings.filter fun b => topicMatches b.pattern topic).length ∧
    (∀ b ∈ bindings, topicMatches b.pattern topic = true →
      (invokedHandlers bindings topic).count b.handlerId = 1) ∧
    (∀ b ∈ bindings, topicMatches b.pattern topic = false →
      (invokedHandlers bindings topic).count b.handlerId = 0) := by
  have hsub : (invokedHandlers bindings topic).Sublist
      (bindings.map Binding.handlerId) :=
    (List.filter_sublist bindings).map Binding.handlerId
  have hnd : (invokedHandlers bindings topic).Nodup := hnodup.sublist hsub
  refine ⟨List.length_map _ _, ?_, ?_⟩
  · intro b hb hm
    have hmem : b.handlerId ∈ invokedHandlers bindings topic := by
      exact List.mem_map_of_mem _ (List.mem_filter.mpr ⟨hb, by simp [hm]⟩)
    exact List.count_eq_one_of_mem hnd hmem
  · intro b hb hm
    rw [List.count_eq_zero]
    intro hmem
    obtain ⟨b', hb', hid⟩ := List.mem_map.mp hmem
    have hb'mem : b' ∈ bindings := (List.mem_filter.mp hb').1
    have hb'match : topicMatches b'.pattern topic = true := by
      have := (List.mem_filter.mp hb').2
      simpa using this
    have : b' = b := List.inj_on_of_nodup_map hnodup hb'mem hb hid
    rw [this, hm] at hb'match
    exact Bool.false_ne_true hb'match

/-- Concrete instance: one binding on `metrics.cpu`, one on `orders.*`;
a message on `metrics.cpu` invokes exactly the first handler, once. -/
theorem publish_invokes_each_matching_handler_once_witness :
    (invokedHandlers [⟨"metrics.cpu", 1⟩, ⟨"orders.*", 2⟩] "metrics.cpu").count 1
      = 1 := by
  have h := publish_invokes_each_matching_handler_once
    [⟨"metrics.cpu", 1⟩, ⟨"orders.*", 2⟩] "metrics.cpu" (by simp)
  have hp : parsePattern "metrics.cpu" = [Seg.word "metrics", Seg.word "cpu"] := by
    decide
  have ht : splitSegs "metrics.cpu" = ["metrics", "cpu"] := by decide
  exact h.2.1 ⟨"metrics.cpu", 1⟩ (by simp)
    (by simp only [topicMatches, hp, ht]; simp [segsMatch])

/-! ## Subscriber life-cycle state machine

Modelled from the spec: "State machine: Idle → Running (on `start`) →
Draining (on `stop`) → Idle (once all in-flight handlers return). No
transition from Idle directly to Draining."  The repository's
subscriber code is absent from `src/`.  The state carries the number of
in-flight handler invocations so "once all in-flight handlers return"
is expressible. -/

inductive Phase where
  | idle
  | running
  | draining
  deriving DecidableEq, Repr

structure SubscriberState where
  phase : Phase
  inflight : Nat
  deriving DecidableEq, Repr

inductive SubEvent where
  | start
  | stop
  | handlerBegin
  | handlerEnd
  | drainCheck
  deriving DecidableEq, Repr

/-- Modelled from the spec: one step of the Subscriber state machine.
`start` moves Idle to Running; `stop` moves Running to Draining;
handlers begin only while Running and their returns are tracked; the
drain check moves Draining to Idle only when no handler is in flight.
Any other event in a given state is rejected (`none`). -/
def subscriberStep : SubscriberState → SubEvent → Option SubscriberState
  | ⟨.idle, k⟩, .start => some ⟨.running, k⟩
  | ⟨.running, k⟩, .stop => some ⟨.draining, k⟩
  | ⟨.running, k⟩, .handlerBegin => some ⟨.running, k + 1⟩
  | ⟨.running, k + 1⟩, .handlerEnd => some ⟨.running, k⟩
  | ⟨.draining, k + 1⟩, .handlerEnd => some ⟨.draining, k⟩
  | ⟨.draining, 0⟩, .drainCheck => some ⟨.idle, 0⟩
  | _, _ => none

/-- C5: every admitted step either keeps the phase, or is one of the
three spec transitions — Idle→Running on `start`, Running→Draining on
`stop`, Draining→Idle via the drain check once no handler is in
flight — and no step ever goes from Idle directly to Draining. -/
theorem subscriber_state_machine_transitions (s : SubscriberState)
    (e : SubEvent) (s' : SubscriberState)
    (h : subscriberStep s e = some s') :
    (s.phase = s'.phase ∨
      (s.phase = .idle ∧ s'.phase = .running ∧ e = .start) ∨
      (s.phase = .running ∧ s'.phase = .draining ∧ e = .stop) ∨
      (s.phase = .draining ∧ s'.phase = .idle ∧ e = .drainCheck ∧
        s.inflight = 0)) ∧
    ¬(s.phase = .idle ∧ s'.phase = .draining) := by
  obtain ⟨p, k⟩ := s
  cases p <;> cases e <;>
    first
      | (simp [subscriberStep] at h; obtain ⟨rfl, rfl⟩ := h; simp)
      | (cases k <;> simp [subscriberStep] at h <;>
          (try obtain ⟨rfl, rfl⟩ := h) <;> simp_all)

/-- Concrete instance: `start` in Idle is one of the admitted
transitions and does not reach Draining. -/
theorem subscriber_state_machine_transitions_witness :
    ¬((SubscriberState.mk Phase.idle 0).phase = Phase.idle ∧
      (SubscriberState.mk Phase.running 0).phase = Phase.draining) :=
  (subscriber_state_machine_transitions ⟨Phase.idle, 0⟩ SubEvent.start
    ⟨Phase.running, 0⟩ (by decide)).2

/-! ## Connection Manager

Modelled from the spec: "`acquire_channel()` returns a usable channel
handle or fails with `ConnectionError` if the broker is unreachable
after configured retry attempts."  The repository's connection-manager
code is absent from `src/`.  The broker collaborator is modelled as a
function from the attempt number to the channel it offers (`none` =
unreachable on that attempt); channel handles are numbered. -/

inductive AcquireError where
  | connectionError
  deriving DecidableEq, Repr

/-- Modelled from the spec: try to connect starting at attempt number
`attempt` with `n` attempts remaining. -/
def acquireAux (broker : Nat → Option Nat) : Nat → Nat → Except AcquireError Nat
  | _, 0 => .error .connectionError
  | attempt, n + 1 =>
      match broker attempt with
      | some ch => .ok ch
      | none => acquireAux broker (attempt + 1) n

/-- Modelled from the spec: acquire a channel, retrying connection
establishment up to the configured number of attempts. -/
def acquireChannel (broker : Nat → Option Nat) (maxAttempts : Nat) :
    Except AcquireError Nat :=
  acquireAux broker 0 maxAttempts

theorem acquireAux_error_iff (broker : Nat → Option Nat) :
    ∀ n start, acquireAux broker start n = .error .connectionError ↔
      ∀ i < n, broker (start + i) = none := by
  intro n
  induction n with
  | zero => intro start; simp [acquireAux]
  | succ n ih =>
    intro start
    rw [acquireAux]
    cases hb : broker start with
    | some ch =>
      simp only []
      constructor
      · intro h; exact absurd h (by simp)
      · intro h
        have := h 0 (Nat.succ_pos n)
        rw [Nat.add_zero, hb] at this
        exact absurd this (by simp)
    | none =>
      simp only []
      rw [ih (start + 1)]
      constructor
      · intro h i hi
        cases i with
        | zero => simpa using hb
        | succ i =>
          have := h i (Nat.lt_of_succ_lt_succ hi)
          simpa [Nat.add_comm, Nat.add_assoc, Nat.add_left_comm] using this
      · intro h i hi
        have := h (i + 1) (Nat.succ_lt_succ hi)
        simpa [Nat.add_comm, Nat.add_assoc, Nat.add_left_comm] using this

/-- C6: `acquire_channel` either returns a channel handle or fails with
`ConnectionError`, and the `ConnectionError` outcome occurs exactly
when the broker is unreachable on every one of the configured retry
attempts. -/
theorem acquire_channel_contract (broker : Nat → Option Nat)
    (maxAttempts : Nat) :
    ((∃ ch, acquireChannel broker maxAttempts = .ok ch) ∨
      acquireChannel broker maxAttempts = .error .connectionError) ∧
    (acquireChannel broker maxAttempts = .error .connectionError ↔
      ∀ a < maxAttempts, broker a = none) := by
  constructor
  · cases h : acquireChannel broker maxAttempts with
    | ok ch => exact Or.inl ⟨ch, rfl⟩
    | error e => cases e; exact Or.inr rfl
  · have h := acquireAux_error_iff broker maxAttempts 0
    simpa [acquireChannel] using h

/-! ## Concurrent publish over the shared channel

Modelled from the spec: "The Connection Manager's channel is a single
shared resource; ... the Manager serializes access" and "under N
concurrent publishers, all N envelopes are eventually transmitted, none
lost, none duplicated".  The repository's connection-manager code is
absent from `src/`.  Because the Manager serializes channel access,
each envelope transfer is one atomic step; a schedule (list of
publisher indices) chooses the interleaving. -/

/-- The shared-channel system: each publisher's queue of still-pending
envelopes, and the envelopes transmitted on the channel so far. -/
structure PubSystem where
  pending : List (List Nat)
  transmitted : List Nat
  deriving DecidableEq, Repr

/-- Modelled from the spec: one serialized publish step by publisher
`i` — its next envelope moves atomically onto the channel.  A publisher
with nothing pending (or an out-of-range index) changes nothing. -/
def pubStep (s : PubSystem) (i : Nat) : PubSystem :=
  match s.pending[i]? with
  | some (e :: rest) =>
      { pending := s.pending.set i rest
        transmitted := s.transmitted ++ [e] }
  | _ => s

/-- Run a whole interleaving schedule. -/
def pubRun (s : PubSystem) : List Nat → PubSystem
  | [] => s
  | i :: sched => pubRun (pubStep s i) sched

/-- All envelopes in the system, transmitted or still pending. -/
def envMultiset (s : PubSystem) : Multiset Nat :=
  (s.transmitted : Multiset Nat) +
    (s.pending.map fun q : List Nat => (q : Multiset Nat)).sum

/-- Envelopes still awaiting transmission. -/
def totalLen (s : PubSystem) : Nat :=
  (s.pending.map List.length).sum

theorem sum_map_set {M : Type} [AddCommMonoid M] (m : List Nat → M) :
    ∀ (l : List (List Nat)) (i : Nat) (q rest : List Nat),
      l[i]? = some q →
      ((l.set i rest).map m).sum + m q = (l.map m).sum + m rest := by
  intro l
  induction l with
  | nil => intro i q rest h; simp at h
  | cons a l ih =>
    intro i q rest h
    cases i with
    | zero =>
      simp only [List.getElem?_cons_zero, Option.some_inj] at h
      subst h
      simp only [List.set_cons_zero, List.map_cons, List.sum_cons]
      abel
    | succ i =>
      simp only [List.getElem?_cons_succ] at h
      simp only [List.set_cons_succ, List.map_cons, List.sum_cons]
      rw [add_assoc, ih i q rest h, ← add_assoc]

theorem envMultiset_pubStep (s : PubSystem) (i : Nat) :
    envMultiset (pubStep s i) = envMultiset s := by
  unfold pubStep
  cases h : s.pending[i]? with
  | none => rfl
  | some q =>
    cases q with
    | nil => rfl
    | cons e rest =>
      have key : ((s.pending.set i rest).map
            fun q : List Nat => (q : Multiset Nat)).sum +
            ((e :: rest : List Nat) : Multiset Nat) =
          (s.pending.map fun q : List Nat => (q : Multiset Nat)).sum +
            ((rest : List Nat) : Multiset Nat) :=
        sum_map_set _ s.pending i (e :: rest) rest h
      rw [← Multiset.cons_coe, ← Multiset.singleton_add, ← add_assoc] at key
      have key2 : ((s.pending.set i rest).map
            fun q : List Nat => (q : Multiset Nat)).sum + {e} =
          (s.pending.map fun q : List Nat => (q : Multiset Nat)).sum :=
        add_right_cancel key
      show envMultiset ⟨s.pending.set i rest, s.transmitted ++ [e]⟩ = envMultiset s
      simp only [envMultiset]
      rw [← key2, ← Multiset.coe_add, Multiset.coe_singleton]
      abel

theorem envMultiset_pubRun (s : PubSystem) (sched : List Nat) :
    envMultiset (pubRun s sched) = envMultiset s := by
  induction sched generalizing s with
  | nil => rfl
  | cons i sched ih => rw [pubRun, ih, envMultiset_pubStep]

theorem totalLen_pubStep (s : PubSystem) (i : Nat) (e : Nat) (rest : List Nat)
    (h : s.pending[i]? = some (e :: rest)) :
    totalLen (pubStep s i) + 1 = totalLen s := by
  have key := sum_map_set List.length s.pending i (e :: rest) rest h
  simp only [List.length_cons] at key
  simp only [pubStep, h, totalLen]
  omega

theorem exists_complete_schedule :
    ∀ (n : Nat) (s : PubSystem), totalLen s ≤ n →
      ∃ sched, ∀ q ∈ (pubRun s sched).pending, q = [] := by
  intro n
  induction n with
  | zero =>
    intro s hs
    refine ⟨[], fun q hq => ?_⟩
    simp only [totalLen, Nat.le_zero] at hs
    have : q.length = 0 := by
      have hmem : q.length ∈ s.pending.map List.length := List.mem_map_of_mem _ hq
      have := List.single_le_sum (fun x _ => Nat.zero_le x) _ hmem
      omega
    exact List.length_eq_zero.mp this
  | succ n ih =>
    intro s hs
    by_cases hall : ∀ q ∈ s.pending, q = []
    · exact ⟨[], hall⟩
    · push_neg at hall
      obtain ⟨q, hq, hqne⟩ := hall
      cases q with
      | nil => exact absurd rfl hqne
      | cons e rest =>
        obtain ⟨i, hi, hget⟩ := List.getElem_of_mem hq
        have hget? : s.pending[i]? = some (e :: rest) := by
          rw [List.getElem?_eq_getElem hi, hget]
        have hlen := totalLen_pubStep s i e rest hget?
        obtain ⟨sched, hsched⟩ := ih (pubStep s i) (by omega)
        exact ⟨i :: sched, by rw [pubRun]; exact hsched⟩

/-- C7: with channel access serialized by the Connection Manager, every
complete interleaving of N concurrent publishers transmits exactly the
N submitted envelopes — none lost, none duplicated — and a complete
interleaving exists. -/
theorem concurrent_publish_no_loss_no_duplication
    (queues : List (List Nat)) :
    (∃ sched, ∀ q ∈ (pubRun ⟨queues, []⟩ sched).pending, q = []) ∧
    (∀ sched, (∀ q ∈ (pubRun ⟨queues, []⟩ sched).pending, q = []) →
      ((pubRun ⟨queues, []⟩ sched).transmitted : Multiset Nat) =
        (queues.map fun q : List Nat => (q : Multiset Nat)).sum) := by
  constructor
  · exact exists_complete_schedule (totalLen ⟨queues, []⟩) _ le_rfl
  · intro sched hdone
    have hinv := envMultiset_pubRun ⟨queues, []⟩ sched
    have hzero : ((pubRun ⟨queues, []⟩ sched).pending.map
        fun q : List Nat => (q : Multiset Nat)).sum = 0 :=
      List.sum_eq_zero (by
        intro x hx
        obtain ⟨q, hq, hxq⟩ := List.mem_map.mp hx
        rw [← hxq, hdone q hq]
        rfl)
    simp only [envMultiset, hzero, add_zero] at hinv
    simpa using hinv

/-- Concrete instance: two publishers with one envelope each, run to
completion under the interleaving `[0, 1]`. -/
theorem concurrent_publish_no_loss_no_duplication_witness :
    ((pubRun ⟨[[1], [2]], []⟩ [0, 1]).transmitted : Multiset Nat) =
      (([[1], [2]] : List (List Nat)).map fun q : List Nat => (q : Multiset Nat)).sum :=
  (concurrent_publish_no_loss_no_duplication [[1], [2]]).2 [0, 1] (by decide)

/-! ## The packaging script (`src/setup.py`)

This part is embedded from the repository's one source file.  The
script opens `README.md` next to itself (raising a file-not-found error
when it is absent), changes the process working directory to the
script's own directory, and then calls `setup(...)` with the literal
metadata of the distribution. -/

/-- The keyword arguments of the `setup(...)` call in `src/setup.py`
(classifiers and package discovery aside). -/
structure SetupArgs where
  name : String
  version : String
  license : String
  description : String
  longDescription : String
  url : String
  author : String
  authorEmail : String
  installRequires : List String
  deriving DecidableEq, Repr

/-- Observable effects of running the packaging script. -/
inductive ScriptEffect where
  | openRead (file : String)
  | chdir (dir : String)
  | setupCall (args : SetupArgs)
  deriving DecidableEq, Repr

inductive ScriptError where
  | fileNotFoundError (file : String)
  deriving DecidableEq, Repr

/-- Global process state the script mutates (`os.chdir`). -/
structure ProcState where
  cwd : String
  deriving DecidableEq, Repr

/-- The `setup(...)` keyword arguments, with the README text passed as
`long_description` (from `src/setup.py` lines 10-35). -/
def setupKwargs (readme : String) : SetupArgs :=
  { name := "django-microservice-propaganda"
    version := "0.1"
    license := "MIT License"
    description := "Simple pub/sub utility for Kombu based on Yosun"
    longDescription := readme
    url := "https://www.salalem.com/"
    author := "Firas Kafri"
    authorEmail := "firas@salalem.com"
    installRequires := ["kombu<5.0,>=4.4.0"] }

/-- Embedded from `src/setup.py`: `scriptDir` is the directory holding
the script (`os.path.dirname(__file__)`), `files` maps names of files
in that directory to their contents, and `st` is the process state on
entry.  Returns the effect trace together with the error or the final
process state and the arguments passed to `setup`. -/
def runSetupScript (scriptDir : String) (files : String → Option String)
    (st : ProcState) :
    List ScriptEffect × Except ScriptError (ProcState × SetupArgs) :=
  match files "README.md" with
  | none =>
      ([.openRead "README.md"], .error (.fileNotFoundError "README.md"))
  | some readme =>
      let args := setupKwargs readme
      ([.openRead "README.md", .chdir scriptDir, .setupCall args],
        .ok ({ st with cwd := scriptDir }, args))

/-- C8: with no `README.md` in the script's directory the script fails
with a file-not-found error and never calls `setup`; with `README.md`
present, its full text is passed as the `long_description`. -/
theorem setup_script_readme_behaviour (scriptDir : String)
    (files : String → Option String) (st : ProcState) :
    (files "README.md" = none →
      (runSetupScript scriptDir files st).2 =
          .error (.fileNotFoundError "README.md") ∧
        ∀ args, ScriptEffect.setupCall args ∉
          (runSetupScript scriptDir files st).1) ∧
    (∀ txt, files "README.md" = some txt →
      ∃ st' args, (runSetupScript scriptDir files st).2 = .ok (st', args) ∧
        args.longDescription = txt) := by
  constructor
  · intro hnone
    rw [runSetupScript, hnone]
    exact ⟨rfl, by simp⟩
  · intro txt htxt
    rw [runSetupScript, htxt]
    exact ⟨{ st with cwd := scriptDir }, setupKwargs txt, rfl, rfl⟩

/-- Concrete instance: an empty directory makes the script fail before
`setup`; a directory holding `README.md` with text `"docs"` passes
`"docs"` through as the long description. -/
theorem setup_script_readme_behaviour_witness :
    (runSetupScript "/repo" (fun _ => none) ⟨"/tmp"⟩).2 =
        Except.error (ScriptError.fileNotFoundError "README.md") ∧
    ∃ st' args,
      (runSetupScript "/repo"
          (fun f => if f = "README.md" then some "docs" else none)
          ⟨"/tmp"⟩).2 = Except.ok (st', args) ∧
        args.longDescription = "docs" :=
  ⟨((setup_script_readme_behaviour "/repo" (fun _ => none) ⟨"/tmp"⟩).1 rfl).1,
    (setup_script_readme_behaviour "/repo"
        (fun f => if f = "README.md" then some "docs" else none) ⟨"/tmp"⟩).2
      "docs" rfl⟩

/-- C10: whenever the script reaches the `setup(...)` call, the
`os.chdir` to the script's own directory has already happened (it
appears earlier in the effect trace), and the changed working
directory persists in the resulting process state. -/
theorem setup_script_chdir_before_setup (scriptDir : String)
    (files : String → Option String) (st : ProcState) (txt : String)
    (h : files "README.md" = some txt) :
    (runSetupScript scriptDir files st).1 =
      [ScriptEffect.openRead "README.md", ScriptEffect.chdir scriptDir,
        ScriptEffect.setupCall (setupKwargs txt)] ∧
    (runSetupScript scriptDir files st).2 =
      .ok ({ st with cwd := scriptDir }, setupKwargs txt) := by
  rw [runSetupScript, h]
  exact ⟨rfl, rfl⟩

/-- Concrete instance of the chdir-before-setup trace. -/
theorem setup_script_chdir_before_setup_witness :
    (runSetupScript "/repo"
        (fun f => if f = "README.md" then some "docs" else none) ⟨"/tmp"⟩).1 =
      [ScriptEffect.openRead "README.md", ScriptEffect.chdir "/repo",
        ScriptEffect.setupCall (setupKwargs "docs")] ∧
    (runSetupScript "/repo"
        (fun f => if f = "README.md" then some "docs" else none) ⟨"/tmp"⟩).2 =
      Except.ok (⟨"/repo"⟩, setupKwargs "docs") :=
  setup_script_chdir_before_setup "/repo"
    (fun f => if f = "README.md" then some "docs" else none) ⟨"/tmp"⟩ "docs" rfl

/-! ## The declared dependency

`src/setup.py` declares `install_requires=['kombu<5.0,>=4.4.0']`: a
single requirement on the broker client library `kombu`.  To state what
that string constrains, the pip requirement grammar used by the string
(package name followed by comma-separated comparator clauses over
dotted numeric versions) is given executable semantics. -/

/-- The repository's source tree: the distribution ships only the
packaging script, no pub/sub implementation modules. -/
def repoSourceFiles : List String :=
  ["setup.py"]

inductive CmpOp where
  | lt
  | le
  | gt
  | ge
  | eq
  | ne
  deriving DecidableEq, Repr

/-- Split a character list on a delimiter. -/
def splitCharAux (delim : Char) : List Char → List Char → List (List Char)
  | [], acc => [acc.reverse]
  | c :: cs, acc =>
      if c = delim then acc.reverse :: splitCharAux delim cs []
      else splitCharAux delim cs (c :: acc)

def digitVal (c : Char) : Option Nat :=
  if '0' ≤ c ∧ c ≤ '9' then some (c.toNat - '0'.toNat) else none

/-- Read a nonempty all-digit character list as a number. -/
def parseNatDigits (cs : List Char) : Option Nat :=
  if cs.isEmpty then none
  else
    cs.foldl
      (fun acc c => do
        let a ← acc
        let d ← digitVal c
        pure (a * 10 + d))
      (some 0)

/-- Read a dotted numeric version such as `4.4.0` as `[4, 4, 0]`. -/
def parseVersionChars (cs : List Char) : Option (List Nat) :=
  (splitCharAux '.' cs []).mapM parseNatDigits

/-- Read one comparator clause such as `>=4.4.0`. -/
def parseSpec (cs : List Char) : Option (CmpOp × List Nat) :=
  match cs with
  | '<' :: '=' :: rest => do pure (.le, ← parseVersionChars rest)
  | '>' :: '=' :: rest => do pure (.ge, ← parseVersionChars rest)
  | '=' :: '=' :: rest => do pure (.eq, ← parseVersionChars rest)
  | '!' :: '=' :: rest => do pure (.ne, ← parseVersionChars rest)
  | '<' :: rest => do pure (.lt, ← parseVersionChars rest)
  | '>' :: rest => do pure (.gt, ← parseVersionChars rest)
  | _ => none

def isCmpChar (c : Char) : Bool :=
  c = '<' || c = '>' || c = '=' || c = '!'

/-- Read a requirement string such as `kombu<5.0,>=4.4.0` into the
package name and its comparator clauses. -/
def parseRequirement (s : String) : Option (String × List (CmpOp × List Nat)) :=
  let cs := s.data
  let name := cs.takeWhile (fun c => !isCmpChar c)
  let rest := cs.dropWhile (fun c => !isCmpChar c)
  if rest.isEmpty then none
  else do
    let specs ← (splitCharAux ',' rest []).mapM parseSpec
    pure (String.mk name, specs)

/-- Strict order on dotted numeric versions, comparing release
segments componentwise with zero-padding of the shorter version. -/
def versionLt : List Nat → List Nat → Bool
  | [], bs => bs.any (fun b => decide (0 < b))
  | _ :: _, [] => false
  | a :: as, b :: bs => a < b || (a = b && versionLt as bs)

/-- Does version `v` satisfy one comparator clause? -/
def specHolds (v : List Nat) : CmpOp × List Nat → Bool
  | (.lt, w) => versionLt v w
  | (.le, w) => !versionLt w v
  | (.gt, w) => versionLt w v
  | (.ge, w) => !versionLt v w
  | (.eq, w) => !versionLt v w && !versionLt w v
  | (.ne, w) => versionLt v w || versionLt w v

/-- Does version `v` satisfy every clause of the requirement string? -/
def requirementSatisfied (s : String) (v : List Nat) : Bool :=
  match parseRequirement s with
  | some (_, specs) => specs.all (specHolds v)
  | none => false

/-- C9: the distribution declares exactly one install requirement; it
names `kombu` and admits exactly the versions strictly below 5.0 and
not below 4.4.0; and the source tree holds nothing but the packaging
script. -/
theorem distribution_single_kombu_requirement :
    (∀ readme, (setupKwargs readme).installRequires = ["kombu<5.0,>=4.4.0"] ∧
      (setupKwargs readme).installRequires.length = 1) ∧
    parseRequirement "kombu<5.0,>=4.4.0" =
      some ("kombu", [(CmpOp.lt, [5, 0]), (CmpOp.ge, [4, 4, 0])]) ∧
    (∀ v, requirementSatisfied "kombu<5.0,>=4.4.0" v = true ↔
      (versionLt v [5, 0] = true ∧ versionLt v [4, 4, 0] = false)) ∧
    ∀ f ∈ repoSourceFiles, f = "setup.py" := by
  have hparse : parseRequirement "kombu<5.0,>=4.4.0" =
      some ("kombu", [(CmpOp.lt, [5, 0]), (CmpOp.ge, [4, 4, 0])]) := by decide
  refine ⟨fun readme => ⟨rfl, rfl⟩, hparse, ?_, by decide⟩
  intro v
  rw [requirementSatisfied, hparse]
  simp [specHolds]

/-- Concrete instance: version 4.5 satisfies the declared kombu
requirement. -/
theorem distribution_single_kombu_requirement_witness :
    requirementSatisfied "kombu<5.0,>=4.4.0" [4, 5] = true :=
  (distribution_single_kombu_requirement.2.2.1 [4, 5]).mpr
    ⟨by decide, by decide⟩
